import Mathlib

/-!
Shallow embedding of the two tools of the `ai-coding-factory` repository:

* `scripts/phase-tracker.py` — a phase state machine over a JSON state
  document, with gate checks driven by checklist files; and
* `scripts/validate-enforcement-rules.py` — a rule engine evaluating
  declarative rules against a git-derived context.

File-system and git interaction is modelled by explicit environment records
(`GateEnv`, `Env`); timestamps (`datetime.now()`) are passed in as opaque
strings.  Python dictionaries with optional keys become structures with
`Option` fields, and `dict.get(k, default)` becomes `Option.getD`.
-/

namespace PhaseTracker

/-- One entry of the static `PHASES` registry of `phase-tracker.py`. -/
structure PhaseInfo where
  description : String
  next : String
  gate : Option String
  required_artifacts : List String
  allowed_actions : List String
  forbidden_actions : List String
deriving DecidableEq, Repr

/-- The `PHASES` dictionary: the five fixed phase definitions, keyed by
phase name; `none` for a string that is not a registry key. -/
def PHASES : String → Option PhaseInfo := fun name =>
  if name = "ideation" then some
    { description := "Define scope and constraints"
      next := "development"
      gate := some "gate_1_ideation_complete"
      required_artifacts := ["requirements.md", "epics.md OR user-stories.md",
        "architecture.md", "risk-log.md"]
      allowed_actions := ["requirements_gathering", "architecture_design", "risk_assessment"]
      forbidden_actions := ["code_changes"] }
  else if name = "development" then some
    { description := "Implement approved stories"
      next := "validation"
      gate := some "gate_3_implementation_complete"
      required_artifacts := ["story files (ACF-###.md)", "implementation code",
        "tests", "documentation updates"]
      allowed_actions := ["implement_stories", "write_tests", "update_docs"]
      forbidden_actions := ["unreviewed_dependencies", "untracked_changes"] }
  else if name = "validation" then some
    { description := "Run validation and quality checks"
      next := "release"
      gate := some "gate_5_security_approved"
      required_artifacts := ["test_report.xml", "coverage_report.xml", "traceability_report.md"]
      allowed_actions := ["run_validation_scripts", "run_ci_checks"]
      forbidden_actions := ["disable_tests", "lower_coverage"] }
  else if name = "release" then some
    { description := "Package and release"
      next := "maintenance"
      gate := some "gate_6_release_ready"
      required_artifacts := ["release_notes.md", "security_review_checklist.md",
        "release_readiness_checklist.md"]
      allowed_actions := ["package", "release"]
      forbidden_actions := ["release_with_violations"] }
  else if name = "maintenance" then some
    { description := "Operate and fix issues"
      next := "ideation"
      gate := none
      required_artifacts := []
      allowed_actions := ["operate", "fix_issues", "monitor"]
      forbidden_actions := ["silent_hotfixes", "untracked_changes"] }
  else none

/-- One record of the persisted `history` list: `from_phase` is an optional
key of the JSON object (absent in the entry written by `init_state`). -/
structure HistoryEntry where
  phase : String
  entered_at : String
  from_phase : Option String
  action : String
deriving DecidableEq, Repr

/-- The persisted project-state JSON document. -/
structure ProjectState where
  phase : String
  entered_at : String
  project_name : String
  gate_checks : List (String × String)
  history : List HistoryEntry
deriving DecidableEq, Repr

/-- The file system as seen by the gate checker: maps a phase name to the
content of `config/gates/{phase}-gate.md`, `none` when the file is absent. -/
structure GateEnv where
  gateFile : String → Option String

/-- Left-to-right scan for `str.count`: `skip` is the number of characters
of a previously found occurrence still to be jumped over, so occurrences are
counted without overlap, exactly as Python's `str.count` does. -/
def countAux : List Char → List Char → Nat → Nat
  | [], _, _ => 0
  | _ :: rest, pat, Nat.succ k => countAux rest pat k
  | c :: rest, pat, 0 =>
    if pat ≠ [] ∧ pat.isPrefixOf (c :: rest) then
      1 + countAux rest pat (pat.length - 1)
    else
      countAux rest pat 0

/-- Python's `str.count(pat)` for a non-empty pattern: number of
non-overlapping occurrences, scanning left to right. -/
def countSubstr (s : List Char) (pat : List Char) : Nat :=
  countAux s pat 0

/-- `content.count('[x]') + content.count('[X]')` from `check_gate`. -/
def countChecked (content : String) : Nat :=
  countSubstr content.data "[x]".data + countSubstr content.data "[X]".data

/-- `content.count('[ ]')` from `check_gate`. -/
def countUnchecked (content : String) : Nat :=
  countSubstr content.data "[ ]".data

/-- `check_gate(state)`: `True` when the current phase has no gate; `False`
when the state is uninitialized, the checklist file is missing, or it has no
checklist items; otherwise passes exactly when `(checked / total) * 100` is
not below 100.  The `PHASES[phase]` lookup is total on reachable states
(the state invariant keeps `phase` a registry key); an invalid phase, which
would raise `KeyError` in Python, is mapped to `false`. -/
def check_gate (env : GateEnv) (state : Option ProjectState) : Bool :=
  match state with
  | none => false
  | some st =>
    match PHASES st.phase with
    | none => false
    | some info =>
      match info.gate with
      | none => true
      | some _ =>
        match env.gateFile st.phase with
        | none => false
        | some content =>
          let checked := countChecked content
          let unchecked := countUnchecked content
          let total := checked + unchecked
          if total = 0 then false
          else
            let percentage : ℚ := ((checked : ℚ) / (total : ℚ)) * 100
            if percentage < 100 then false else true

/-- `init_state(phase)`: `none` models the `sys.exit(1)` on an invalid
phase; otherwise the freshly written state, stamped with `now`. -/
def init_state (now : String) (projectName : String) (phase : String) :
    Option ProjectState :=
  if (PHASES phase).isSome then
    some { phase := phase
           entered_at := now
           project_name := projectName
           gate_checks := []
           history := [{ phase := phase, entered_at := now,
                         from_phase := none, action := "initialized" }] }
  else none

/-- Result of `set_phase`: the in-memory state after the call, and whether
`save_state` was invoked (the state file written). -/
structure SetPhaseResult where
  state : Option ProjectState
  saved : Bool
deriving DecidableEq, Repr

/-- `set_phase(state, new_phase, force)`.  Every early `return` leaves the
state untouched and unsaved; only the final block mutates `phase`,
`entered_at` and `history` and persists.  As in `check_gate`, the
`PHASES[current_phase]` lookup (a `KeyError` in Python on an invalid stored
phase) is mapped to a refusal. -/
def set_phase (env : GateEnv) (now : String) (state : Option ProjectState)
    (new_phase : String) (force : Bool) : SetPhaseResult :=
  match state with
  | none => { state := none, saved := false }
  | some st =>
    if (PHASES new_phase).isNone then { state := some st, saved := false }
    else if st.phase = new_phase then { state := some st, saved := false }
    else
      match PHASES st.phase with
      | none => { state := some st, saved := false }
      | some info =>
        if new_phase ≠ info.next ∧ ¬force then { state := some st, saved := false }
        else if ¬force ∧ ¬check_gate env (some st) then
          { state := some st, saved := false }
        else
          { state := some
              { st with
                phase := new_phase
                entered_at := now
                history := st.history ++
                  [{ phase := new_phase, entered_at := now,
                     from_phase := some st.phase,
                     action := if ¬force then "transitioned" else "forced_transition" }] }
            saved := true }

end PhaseTracker

namespace Validator

/-- Substring containment, Python's `pat in s` for strings: some suffix of
`s` starts with `pat`. -/
def containsSub (s : List Char) (pat : List Char) : Bool :=
  s.tails.any (fun t => pat.isPrefixOf t)

/-- Python's `\s` on ASCII text (Unicode whitespace beyond ASCII is not
modelled; no input of interest contains it). -/
def isPySpace (c : Char) : Bool :=
  c = ' ' || c = '\t' || c = '\n' || c = '\r' || c = '\x0b' || c = '\x0c'

/-- Python's `\w` on ASCII text: letters, digits, underscore. -/
def isWordChar (c : Char) : Bool :=
  c.isAlphanum || c = '_'

/-- The character class `[\w-]` of the secret patterns. -/
def isWordDash (c : Char) : Bool :=
  isWordChar c || c = '-'

/-- The character class `["\']` of the secret patterns. -/
def isQuote (c : Char) : Bool :=
  c = '"' || c = '\''

/-- Case-insensitive literal match: consume `kw` (given lowercase) from the
front of `s`, returning the rest, as the `(?i)` literal parts of the secret
regexes do. -/
def dropCI : List Char → List Char → Option (List Char)
  | [], s => some s
  | k :: kr, c :: cr => if c.toLower = k then dropCI kr cr else none
  | _ :: _, [] => none

/-- Case-sensitive literal match: consume `kw` from the front of `s`. -/
def dropExact : List Char → List Char → Option (List Char)
  | [], s => some s
  | k :: kr, c :: cr => if c = k then dropExact kr cr else none
  | _ :: _, [] => none

/-- The regex tail `\s*[=:]\s*["\'][^"\']+["\']` at the front of `s`
(the whitespace and quote classes are disjoint from what follows them, so
greedy matching is deterministic: after the opening quote there must be a
non-quote character and, later, some quote). -/
def afterSepQuoted (s : List Char) : Bool :=
  match s.dropWhile isPySpace with
  | [] => false
  | c :: rest =>
    (c = '=' || c = ':') &&
    (match rest.dropWhile isPySpace with
     | [] => false
     | q :: v =>
       isQuote q &&
       (match v with
        | [] => false
        | c0 :: _ => !isQuote c0 && v.any isQuote))

/-- The regex tail `\s*[=:]\s*["\']?[\w-]{20,}` at the front of `s`: an
optional quote, then at least 20 consecutive `[\w-]` characters. -/
def afterSepLongValue (s : List Char) : Bool :=
  match s.dropWhile isPySpace with
  | [] => false
  | c :: rest =>
    (c = '=' || c = ':') &&
    (let v := rest.dropWhile isPySpace
     let v2 := match v with
       | q :: vr => if isQuote q then vr else v
       | [] => v
     20 ≤ (v2.takeWhile isWordDash).length)

/-- The regex tail `\s*[=:]` at the front of `s`. -/
def afterSepOnly (s : List Char) : Bool :=
  match s.dropWhile isPySpace with
  | [] => false
  | c :: _ => c = '=' || c = ':'

/-- `(?i)(api[_-]?key|apikey)\s*[=:]\s*["\']?[\w-]{20,}` anchored at the
front of `s` (the `apikey` alternative coincides with `api[_-]?key` taking
the empty option). -/
def matchApiKeyAt (s : List Char) : Bool :=
  match dropCI "api".data s with
  | none => false
  | some r =>
    (match dropCI "key".data r with
     | some r2 => afterSepLongValue r2
     | none => false) ||
    (match r with
     | c :: r1 =>
       (c = '_' || c = '-') &&
       (match dropCI "key".data r1 with
        | some r2 => afterSepLongValue r2
        | none => false)
     | [] => false)

/-- `(?i)(password|passwd|pwd)\s*[=:]\s*["\'][^"\']+["\']` anchored at the
front of `s`. -/
def matchPasswordAt (s : List Char) : Bool :=
  (match dropCI "password".data s with
   | some r => afterSepQuoted r
   | none => false) ||
  (match dropCI "passwd".data s with
   | some r => afterSepQuoted r
   | none => false) ||
  (match dropCI "pwd".data s with
   | some r => afterSepQuoted r
   | none => false)

/-- `(?i)(secret|token)\s*[=:]\s*["\']?[\w-]{20,}` anchored at the front. -/
def matchSecretTokenAt (s : List Char) : Bool :=
  (match dropCI "secret".data s with
   | some r => afterSepLongValue r
   | none => false) ||
  (match dropCI "token".data s with
   | some r => afterSepLongValue r
   | none => false)

/-- `(?i)(aws_access_key_id|aws_secret)\s*[=:]` anchored at the front. -/
def matchAwsAt (s : List Char) : Bool :=
  (match dropCI "aws_access_key_id".data s with
   | some r => afterSepOnly r
   | none => false) ||
  (match dropCI "aws_secret".data s with
   | some r => afterSepOnly r
   | none => false)

/-- `-----BEGIN (RSA |EC |DSA )?PRIVATE KEY-----` (case sensitive) anchored
at the front. -/
def matchPrivateKeyAt (s : List Char) : Bool :=
  match dropExact "-----BEGIN ".data s with
  | none => false
  | some r =>
    (dropExact "PRIVATE KEY-----".data r).isSome ||
    (match dropExact "RSA ".data r with
     | some r2 => (dropExact "PRIVATE KEY-----".data r2).isSome
     | none => false) ||
    (match dropExact "EC ".data r with
     | some r2 => (dropExact "PRIVATE KEY-----".data r2).isSome
     | none => false) ||
    (match dropExact "DSA ".data r with
     | some r2 => (dropExact "PRIVATE KEY-----".data r2).isSome
     | none => false)

/-- `(?i)bearer\s+[\w-]{20,}` anchored at the front. -/
def matchBearerAt (s : List Char) : Bool :=
  match dropCI "bearer".data s with
  | none => false
  | some r =>
    1 ≤ (r.takeWhile isPySpace).length &&
    20 ≤ ((r.dropWhile isPySpace).takeWhile isWordDash).length

/-- `re.search`: the anchored matcher holds at some position of `s`. -/
def searchAny (p : List Char → Bool) (s : List Char) : Bool :=
  s.tails.any p

/-- `check_story_id_in_message(message)`: `re.search(r'ACF-\d+', message)`
as a boolean (a digit here is an ASCII digit). -/
def storyIdAt : List Char → Bool
  | 'A' :: 'C' :: 'F' :: '-' :: d :: _ => d.isDigit
  | _ => false

def check_story_id_in_message (message : String) : Bool :=
  searchAny storyIdAt message.data

/-- `check_for_potential_secrets(content)`: the six secret patterns tried in
order, collecting the description of each that matches somewhere. -/
def check_for_potential_secrets (content : String) : List String :=
  (if searchAny matchApiKeyAt content.data then ["Potential API key"] else []) ++
  (if searchAny matchPasswordAt content.data then ["Hardcoded password"] else []) ++
  (if searchAny matchSecretTokenAt content.data then ["Potential secret/token"] else []) ++
  (if searchAny matchAwsAt content.data then ["AWS credentials"] else []) ++
  (if searchAny matchPrivateKeyAt content.data then ["Private key"] else []) ++
  (if searchAny matchBearerAt content.data then ["Bearer token"] else [])

/-- Backtracking glob matcher behind `globMatch`.  Every recursive call
shortens the pattern or the name, so fuel `pat.length + s.length + 1` is
never exhausted; the fuel argument only makes the recursion structural. -/
def globMatchAux : Nat → List Char → List Char → Bool
  | 0, _, _ => false
  | _ + 1, [], [] => true
  | _ + 1, [], _ :: _ => false
  | fuel + 1, '*' :: pr, s =>
    globMatchAux fuel pr s ||
    (match s with
     | [] => false
     | _ :: sr => globMatchAux fuel ('*' :: pr) sr)
  | _ + 1, '?' :: _, [] => false
  | fuel + 1, '?' :: pr, _ :: sr => globMatchAux fuel pr sr
  | _ + 1, _ :: _, [] => false
  | fuel + 1, c :: pr, c' :: sr => c = c' && globMatchAux fuel pr sr

/-- `fnmatch.fnmatch` restricted to the glob features the rules use: `*`
matches any run of characters, `?` any single character, anything else
itself; the whole name must be consumed.  The `[seq]` character-class
feature of `fnmatch` is not modelled (no rule pattern uses it). -/
def globMatch (pat : List Char) (s : List Char) : Bool :=
  globMatchAux (pat.length + s.length + 1) pat s

/-- `check_file_matches_patterns(filepath, patterns)`. -/
def check_file_matches_patterns (filepath : String) (patterns : List String) : Bool :=
  patterns.any (fun pat => globMatch pat.data filepath.data)

/-- The `forbidden_namespaces` list of `check_domain_dependencies`. -/
def forbidden_namespaces : List String :=
  ["Infrastructure", "Application", "Microsoft.EntityFrameworkCore",
   "System.Net.Http", "Npgsql"]

/-- `check_domain_dependencies(filepath, content)`: empty unless the path
contains `/Domain/`; otherwise one violation per forbidden namespace whose
`using …` form occurs in the content (the second disjunct tests the literal
substring `using.*<ns>`, exactly as the Python source does). -/
def check_domain_dependencies (filepath : String) (content : String) : List String :=
  if ¬ containsSub filepath.data "/Domain/".data then []
  else
    (forbidden_namespaces.filter (fun ns =>
      containsSub content.data ("using " ++ ns).data ||
      containsSub content.data ("using.*" ++ ns).data)).map
      (fun ns => "Domain references forbidden namespace: " ++ ns)

end Validator

namespace Validator

/-- A rule loaded from `rules.yaml`.  Every field is optional, mirroring the
`rule.get(key, default)` accesses of the Python source; the defaults are
applied at each use site. -/
structure Rule where
  name : Option String
  condition : Option String
  trigger : Option String
  paths : Option (List String)
  action : Option String
  message : Option String
  agent : Option String
deriving DecidableEq, Repr

/-- The validation context built in `main`.  `main` always populates the
first five keys, so they are plain fields; `matching_files` is only added by
`validate_rule` when a `paths` rule has matches, so it is optional. -/
structure Context where
  phase : String
  trigger : String
  modified_files : List String
  staged_files : List String
  commit_message : String
  matching_files : Option (List String)
deriving DecidableEq, Repr

/-- The ambient environment of the evaluator: file contents keyed by path
(`none` when `os.path.exists` is false) and the answer of
`get_git_staged_files()` (re-queried inside the `file_staged` branch). -/
structure Env where
  fileContent : String → Option String
  staged_files : List String

/-- The `contains_potential_secrets` loop of `validate_rule`: walk the file
list, skip absent files, fail on the first file whose content yields
findings (message listing the matching secret categories). -/
def secretsLoop (env : Env) : List String → Bool × String
  | [] => (true, "Passed")
  | filepath :: rest =>
    match env.fileContent filepath with
    | none => secretsLoop env rest
    | some content =>
      let secrets := check_for_potential_secrets content
      if secrets ≠ [] then
        (false, "Potential secrets in " ++ filepath ++ ": " ++
          String.intercalate ", " secrets)
      else secretsLoop env rest

/-- The `domain_has_infrastructure_reference` loop of `validate_rule`. -/
def domainLoop (env : Env) : List String → Bool × String
  | [] => (true, "Passed")
  | filepath :: rest =>
    match env.fileContent filepath with
    | none => domainLoop env rest
    | some content =>
      let violations := check_domain_dependencies filepath content
      if violations ≠ [] then (false, String.intercalate "\n" violations)
      else domainLoop env rest

/-- The `file_staged` loop of `validate_rule`. -/
def stagedLoop (rule : Rule) (staged : List String) : List String → Bool × String
  | [] => (true, "Passed")
  | filepath :: rest =>
    if filepath ∈ staged then
      (false, rule.message.getD ("File should not be staged: " ++ filepath))
    else stagedLoop rule staged rest

/-- The condition-dispatch part of `validate_rule` (after the trigger and
paths filters): five recognised condition strings; everything else, and
every non-failing dispatch, ends at `return True, "Passed"`. -/
def evalCondition (env : Env) (rule : Rule) (ctx : Context) : Bool × String :=
  let condition := rule.condition.getD ""
  if condition = "!commit_message_has_story_id" then
    if ¬ check_story_id_in_message ctx.commit_message then
      (false, rule.message.getD "Story ID missing")
    else (true, "Passed")
  else if condition = "contains_potential_secrets" then
    secretsLoop env (ctx.matching_files.getD ctx.modified_files)
  else if condition = "domain_has_infrastructure_reference" then
    domainLoop env (ctx.matching_files.getD [])
  else if condition = "file_staged" then
    stagedLoop rule env.staged_files (ctx.matching_files.getD [])
  else if condition = "coverage < 80" then
    (true, "Passed")
  else (true, "Passed")

/-- `validate_rule(rule, context)`: trigger filter, then paths filter (which
writes `matching_files` into the context — the Python dict is mutated in
place, so the updated context is returned along with the verdict), then
condition dispatch. -/
def validate_rule (env : Env) (rule : Rule) (ctx : Context) :
    (Bool × String) × Context :=
  let trigger := rule.trigger.getD ""
  let paths := rule.paths.getD []
  if trigger = "pre_commit" ∧ ctx.trigger ≠ "pre_commit" then
    ((true, "Skipped (wrong trigger)"), ctx)
  else if trigger = "phase_transition" ∧ ctx.trigger ≠ "phase_transition" then
    ((true, "Skipped (wrong trigger)"), ctx)
  else if paths ≠ [] then
    let matching_files := ctx.modified_files.filter
      (fun f => check_file_matches_patterns f paths)
    if matching_files = [] then ((true, "Skipped (no matching files)"), ctx)
    else
      let ctx2 := { ctx with matching_files := some matching_files }
      (evalCondition env rule ctx2, ctx2)
  else (evalCondition env rule ctx, ctx)

/-- The `(passed, warnings, errors)` counters of `validate_all_rules`. -/
structure Counters where
  passed : Nat
  warnings : Nat
  errors : Nat
deriving DecidableEq, Repr

/-- `validate_all_rules(rules_config, context)`: evaluate the rules in
order, threading the (mutated) context, and bucket each outcome by the
rule's `action` (default `warn`).  A failing rule whose action is none of
the four recognised ones falls through every `elif` and touches no
counter. -/
def validate_all_rules (env : Env) : List Rule → Context → Counters × Context
  | [], ctx => ({ passed := 0, warnings := 0, errors := 0 }, ctx)
  | rule :: rest, ctx =>
    let action := rule.action.getD "warn"
    let r := validate_rule env rule ctx
    let is_valid := r.1.1
    let rec_result := validate_all_rules env rest r.2
    let c := rec_result.1
    let c1 :=
      if is_valid then { c with passed := c.passed + 1 }
      else if action = "block" then { c with errors := c.errors + 1 }
      else if action = "warn" then { c with warnings := c.warnings + 1 }
      else if action = "require_review" then { c with warnings := c.warnings + 1 }
      else if action = "require_approval" then { c with warnings := c.warnings + 1 }
      else c
    (c1, rec_result.2)

/-- The per-rule verdicts of a `validate_all_rules` run, in order, with the
context threaded exactly as there. -/
def ruleTrace (env : Env) : List Rule → Context → List (Rule × Bool)
  | [], _ => []
  | rule :: rest, ctx =>
    let r := validate_rule env rule ctx
    (rule, r.1.1) :: ruleTrace env rest r.2

/-- The tail of `main` (after rules are loaded and the context is built,
`--show-delegation` absent): run `validate_all_rules`, then return 1 exactly
when `errors > 0` and `--check-only` was not passed, else 0. -/
def main_exit (env : Env) (rules : List Rule) (ctx : Context)
    (check_only : Bool) : Nat :=
  let c := (validate_all_rules env rules ctx).1
  if c.errors > 0 then
    if ¬check_only then 1 else 0
  else 0

end Validator

namespace PhaseTracker

/-- The state invariant documented in the spec (§3): the stored phase is a
registry key, the history is non-empty, its first entry carries no
`from_phase`, and every later entry does. -/
def Inv (st : ProjectState) : Prop :=
  (PHASES st.phase).isSome = true ∧
  st.history ≠ [] ∧
  (∀ e, st.history.head? = some e → e.from_phase = none) ∧
  (∀ e ∈ st.history.tail, e.from_phase ≠ none)

/-- The registry entry for `ideation`, spelled out (used to instantiate
theorems at concrete inputs). -/
def ideationInfo : PhaseInfo :=
  { description := "Define scope and constraints"
    next := "development"
    gate := some "gate_1_ideation_complete"
    required_artifacts := ["requirements.md", "epics.md OR user-stories.md",
      "architecture.md", "risk-log.md"]
    allowed_actions := ["requirements_gathering", "architecture_design", "risk_assessment"]
    forbidden_actions := ["code_changes"] }

/-- A gate environment whose `ideation` checklist is fully checked. -/
def envDone : GateEnv :=
  ⟨fun p => if p = "ideation" then some "- [x] a\n- [x] b\n- [X] c\n- [x] d" else none⟩

/-- A gate environment whose `ideation` checklist has 3 checked and 1
unchecked item. -/
def envPartial : GateEnv :=
  ⟨fun p => if p = "ideation" then some "- [x] a\n- [x] b\n- [x] c\n- [ ] d" else none⟩

/-- A gate environment with no checklist files at all. -/
def envEmpty : GateEnv := ⟨fun _ => none⟩

/-- A freshly initialized state in the `ideation` phase. -/
def stIdeation : ProjectState :=
  { phase := "ideation"
    entered_at := "t0"
    project_name := "proj"
    gate_checks := []
    history := [{ phase := "ideation", entered_at := "t0",
                  from_phase := none, action := "initialized" }] }

/-- The state reached from `stIdeation` by a forced transition to
`release`. -/
def stReleased : ProjectState :=
  { stIdeation with
    phase := "release"
    entered_at := "t1"
    history := stIdeation.history ++
      [{ phase := "release"
         entered_at := "t1"
         from_phase := some "ideation"
         action := "forced_transition" }] }

end PhaseTracker

namespace Validator

/-- An evaluator environment with no files on disk and nothing staged. -/
def envNone : Env := ⟨fun _ => none, []⟩

/-- A rule with an unrecognised `action`, failing the story-id condition. -/
def ruleAudit : Rule :=
  { name := some "story-id"
    condition := some "!commit_message_has_story_id"
    trigger := none
    paths := none
    action := some "audit"
    message := some "Story ID missing from commit"
    agent := none }

/-- A blocking rule failing the story-id condition. -/
def ruleBlock : Rule :=
  { name := some "story-id"
    condition := some "!commit_message_has_story_id"
    trigger := none
    paths := none
    action := some "block"
    message := some "Story ID missing from commit"
    agent := none }

/-- A rule scoped to C# files with an unknown condition. -/
def ruleCs : Rule :=
  { name := some "cs-only"
    condition := some "no_such_condition"
    trigger := none
    paths := some ["*.cs"]
    action := some "block"
    message := none
    agent := none }

/-- A context as `main` builds it: one modified Python file, a commit
message without a story id. -/
def ctxPy : Context :=
  { phase := "development"
    trigger := "pre_commit"
    modified_files := ["foo.py"]
    staged_files := []
    commit_message := "add login"
    matching_files := none }

end Validator

namespace PhaseTracker

theorem percent_lt_iff (c u : Nat) (h : c + u ≠ 0) :
    ((c : ℚ) / ((c + u : Nat) : ℚ)) * 100 < 100 ↔ 0 < u := by
  have hpos : (0 : ℚ) < ((c + u : Nat) : ℚ) := by
    exact_mod_cast Nat.pos_of_ne_zero h
  rw [div_mul_eq_mul_div, div_lt_iff₀ hpos]
  constructor
  · intro hlt
    by_contra hc
    push_neg at hc
    have hu : u = 0 := Nat.le_zero.mp hc
    subst hu
    simp at hlt
    linarith
  · intro hu
    have : (c : ℚ) < ((c + u : Nat) : ℚ) := by
      exact_mod_cast Nat.lt_add_of_pos_right hu
    nlinarith

theorem percent_eq_iff (c u : Nat) (h : c + u ≠ 0) :
    ((c : ℚ) / ((c + u : Nat) : ℚ)) * 100 = 100 ↔ u = 0 := by
  have hpos : (0 : ℚ) < ((c + u : Nat) : ℚ) := by
    exact_mod_cast Nat.pos_of_ne_zero h
  rw [div_mul_eq_mul_div, div_eq_iff (ne_of_gt hpos)]
  constructor
  · intro heq
    have hcq : (c : ℚ) = ((c + u : Nat) : ℚ) := by linarith
    have : c = c + u := by exact_mod_cast hcq
    omega
  · intro hu
    subst hu
    push_cast
    ring

/-- For a gated phase, `check_gate` passes exactly when the checklist file
exists, has at least one marker, and has no unchecked marker. -/
theorem check_gate_gated_iff (env : GateEnv) (st : ProjectState) (info : PhaseInfo)
    (hp : PHASES st.phase = some info) (g : String) (hg : info.gate = some g) :
    check_gate env (some st) = true ↔
      ∃ content, env.gateFile st.phase = some content ∧
        countChecked content ≠ 0 ∧ countUnchecked content = 0 := by
  simp only [check_gate, hp, hg]
  cases hf : env.gateFile st.phase with
  | none => simp
  | some content =>
    simp only [Option.some.injEq]
    by_cases h0 : countChecked content + countUnchecked content = 0
    · simp only [h0, if_pos rfl]
      constructor
      · intro hfalse
        exact (Bool.false_ne_true hfalse).elim
      · rintro ⟨c', hc', hne, hu⟩
        subst hc'
        exfalso
        omega
    · rw [if_neg h0]
      by_cases hu : countUnchecked content = 0
      · have hnl : ¬ (((countChecked content : ℚ) /
            ((countChecked content + countUnchecked content : Nat) : ℚ)) * 100 < 100) := by
          rw [percent_lt_iff _ _ h0]
          omega
        rw [if_neg hnl]
        constructor
        · intro _
          exact ⟨content, rfl, by omega, hu⟩
        · intro _
          rfl
      · have hl : ((countChecked content : ℚ) /
            ((countChecked content + countUnchecked content : Nat) : ℚ)) * 100 < 100 :=
          (percent_lt_iff _ _ h0).mpr (Nat.pos_of_ne_zero hu)
        rw [if_pos hl]
        constructor
        · intro hfalse
          exact (Bool.false_ne_true hfalse).elim
        · rintro ⟨c', hc', hne, hu'⟩
          subst hc'
          exact absurd hu' hu

/-- `check_gate` passes trivially on a phase with no gate. -/
theorem check_gate_nogate (env : GateEnv) (st : ProjectState) (info : PhaseInfo)
    (hp : PHASES st.phase = some info) (hg : info.gate = none) :
    check_gate env (some st) = true := by
  simp [check_gate, hp, hg]

/-- Full characterisation of a passing gate check: the gate is absent, or
the checklist exists, is non-empty, and its completion percentage is
exactly 100. -/
theorem check_gate_true_iff (env : GateEnv) (st : ProjectState) (info : PhaseInfo)
    (hp : PHASES st.phase = some info) :
    check_gate env (some st) = true ↔
      (info.gate = none ∨
        ∃ content, env.gateFile st.phase = some content ∧
          countChecked content + countUnchecked content ≠ 0 ∧
          ((countChecked content : ℚ) /
            ((countChecked content + countUnchecked content : Nat) : ℚ)) * 100 = 100) := by
  cases hg : info.gate with
  | none =>
    exact iff_of_true (check_gate_nogate env st info hp hg) (Or.inl rfl)
  | some g =>
    rw [check_gate_gated_iff env st info hp g hg]
    constructor
    · rintro ⟨content, hfc, hne, hu⟩
      exact Or.inr ⟨content, hfc, by omega,
        (percent_eq_iff _ _ (by omega)).mpr hu⟩
    · rintro (hnone | ⟨content, hfc, htot, hperc⟩)
      · exact (Option.some_ne_none g hnone).elim
      · have hu := (percent_eq_iff _ _ htot).mp hperc
        exact ⟨content, hfc, by omega, hu⟩

/-- Reduction of `set_phase` once the target is a valid registry key and
differs from the current phase. -/
theorem set_phase_eq (env : GateEnv) (now : String) (st : ProjectState)
    (target : String) (force : Bool) (info tinfo : PhaseInfo)
    (hp : PHASES st.phase = some info) (ht : PHASES target = some tinfo)
    (hne : st.phase ≠ target) :
    set_phase env now (some st) target force =
      if target ≠ info.next ∧ ¬force then { state := some st, saved := false }
      else if ¬force ∧ ¬(check_gate env (some st) = true) then
        { state := some st, saved := false }
      else
        { state := some
            { st with
              phase := target
              entered_at := now
              history := st.history ++
                [{ phase := target
                   entered_at := now
                   from_phase := some st.phase
                   action := if ¬force then "transitioned" else "forced_transition" }] }
          saved := true } := by
  simp only [set_phase, ht, Option.isNone_some, if_neg hne, hp, Bool.not_eq_true]
  rfl

end PhaseTracker

namespace PhaseTracker

/-- Claim C1: for every initialized state whose current phase is a registry
key, and every target phase that is a valid registry key and differs from
the current phase, a non-forced `set_phase` persists (mutating the phase and
appending a `transitioned` history entry) exactly when the target equals the
registry's `next` value for the current phase and the gate check passes —
gate absent, or checklist at exactly 100% — and otherwise refuses, leaving
the in-memory state unchanged. -/
theorem nonforced_transition_charact (env : GateEnv) (now : String)
    (st : ProjectState) (info : PhaseInfo) (hp : PHASES st.phase = some info)
    (target : String) (hvalid : (PHASES target).isSome = true)
    (hne : st.phase ≠ target) :
    ((set_phase env now (some st) target false).saved = true ↔
      (target = info.next ∧ check_gate env (some st) = true)) ∧
    (check_gate env (some st) = true ↔
      (info.gate = none ∨
        ∃ content, env.gateFile st.phase = some content ∧
          countChecked content + countUnchecked content ≠ 0 ∧
          ((countChecked content : ℚ) /
            ((countChecked content + countUnchecked content : Nat) : ℚ)) * 100 = 100)) ∧
    ((set_phase env now (some st) target false).saved = true →
      (set_phase env now (some st) target false).state =
        some
          { st with
            phase := target
            entered_at := now
            history := st.history ++
              [{ phase := target
                 entered_at := now
                 from_phase := some st.phase
                 action := "transitioned" }] }) ∧
    ((set_phase env now (some st) target false).saved = false →
      (set_phase env now (some st) target false).state = some st) := by
  obtain ⟨tinfo, ht⟩ := Option.isSome_iff_exists.mp hvalid
  have hsp := set_phase_eq env now st target false info tinfo hp ht hne
  refine ⟨?_, check_gate_true_iff env st info hp, ?_, ?_⟩
  · rw [hsp]
    by_cases hnext : target = info.next
    · by_cases hgate : check_gate env (some st) = true
      · simp [hnext, hgate]
      · simp [hnext, hgate]
    · simp [hnext]
  · rw [hsp]
    by_cases hnext : target = info.next
    · by_cases hgate : check_gate env (some st) = true
      · simp [hnext, hgate]
      · simp [hnext, hgate]
    · simp [hnext]
  · rw [hsp]
    by_cases hnext : target = info.next
    · by_cases hgate : check_gate env (some st) = true
      · simp [hnext, hgate]
      · simp [hnext, hgate]
    · simp [hnext]

end PhaseTracker

namespace PhaseTracker

theorem nonforced_transition_charact_witness :
    (set_phase envDone "t1" (some stIdeation) "development" false).saved = true ∧
    (set_phase envPartial "t1" (some stIdeation) "development" false).saved = false := by
  constructor
  · exact ((nonforced_transition_charact envDone "t1" stIdeation ideationInfo rfl
      "development" (by decide) (by decide)).1).mpr
      ⟨rfl, (check_gate_gated_iff envDone stIdeation ideationInfo rfl
        "gate_1_ideation_complete" rfl).mpr
        ⟨"- [x] a\n- [x] b\n- [X] c\n- [x] d", rfl, by decide, by decide⟩⟩
  · have hgf : ¬ (check_gate envPartial (some stIdeation) = true) := by
      rw [check_gate_gated_iff envPartial stIdeation ideationInfo rfl
        "gate_1_ideation_complete" rfl]
      rintro ⟨c, hc, -, hu⟩
      have hc' : some "- [x] a\n- [x] b\n- [x] c\n- [ ] d" = some c := hc
      cases hc'
      exact absurd hu (by decide)
    have h := (nonforced_transition_charact envPartial "t1" stIdeation ideationInfo rfl
      "development" (by decide) (by decide)).1
    exact Bool.eq_false_iff.mpr (fun hs => hgf ((h.mp hs).2))

end PhaseTracker

namespace PhaseTracker

/-- Claim C2: for every gated phase, the gate check passes exactly when the
checklist file exists, has at least one checkbox marker, and
`checked / (checked + unchecked) * 100` is exactly 100; a missing checklist
file or one with zero markers makes the gate fail rather than crash; in
particular 3 checked and 1 unchecked markers yield 75% and fail, while
4 checked and 0 unchecked yield 100% and pass. -/
theorem gate_percentage_semantics (env : GateEnv) (st : ProjectState)
    (info : PhaseInfo) (hp : PHASES st.phase = some info)
    (g : String) (hg : info.gate = some g) :
    (check_gate env (some st) = true ↔
      ∃ content, env.gateFile st.phase = some content ∧
        countChecked content + countUnchecked content ≠ 0 ∧
        ((countChecked content : ℚ) /
          ((countChecked content + countUnchecked content : Nat) : ℚ)) * 100 = 100) ∧
    (env.gateFile st.phase = none → check_gate env (some st) = false) ∧
    (∀ content, env.gateFile st.phase = some content →
      countChecked content + countUnchecked content = 0 →
      check_gate env (some st) = false) ∧
    (∀ content, env.gateFile st.phase = some content →
      countChecked content = 3 → countUnchecked content = 1 →
      ((countChecked content : ℚ) /
        ((countChecked content + countUnchecked content : Nat) : ℚ)) * 100 = 75 ∧
      check_gate env (some st) = false) ∧
    (∀ content, env.gateFile st.phase = some content →
      countChecked content = 4 → countUnchecked content = 0 →
      ((countChecked content : ℚ) /
        ((countChecked content + countUnchecked content : Nat) : ℚ)) * 100 = 100 ∧
      check_gate env (some st) = true) := by
  refine ⟨?_, ?_, ?_, ?_, ?_⟩
  · rw [check_gate_gated_iff env st info hp g hg]
    constructor
    · rintro ⟨content, hfc, hne, hu⟩
      exact ⟨content, hfc, by omega, (percent_eq_iff _ _ (by omega)).mpr hu⟩
    · rintro ⟨content, hfc, htot, hperc⟩
      have hu := (percent_eq_iff _ _ htot).mp hperc
      exact ⟨content, hfc, by omega, hu⟩
  · intro h
    simp [check_gate, hp, hg, h]
  · intro content hfc h0
    simp [check_gate, hp, hg, hfc, h0]
  · intro content hfc h3 h1
    constructor
    · rw [h3, h1]
      norm_num
    · rw [Bool.eq_false_iff]
      intro htrue
      obtain ⟨c, hc, -, hu⟩ := (check_gate_gated_iff env st info hp g hg).mp htrue
      rw [hfc] at hc
      have hcc : content = c := Option.some.inj hc
      rw [← hcc] at hu
      omega
  · intro content hfc h4 h0
    constructor
    · rw [h4, h0]
      norm_num
    · exact (check_gate_gated_iff env st info hp g hg).mpr
        ⟨content, hfc, by omega, h0⟩

theorem gate_percentage_semantics_witness :
    check_gate envDone (some stIdeation) = true ∧
    check_gate envPartial (some stIdeation) = false ∧
    check_gate envEmpty (some stIdeation) = false := by
  refine ⟨?_, ?_, ?_⟩
  · exact ((gate_percentage_semantics envDone stIdeation ideationInfo rfl
      "gate_1_ideation_complete" rfl).2.2.2.2 "- [x] a\n- [x] b\n- [X] c\n- [x] d"
      rfl (by decide) (by decide)).2
  · exact ((gate_percentage_semantics envPartial stIdeation ideationInfo rfl
      "gate_1_ideation_complete" rfl).2.2.2.1 "- [x] a\n- [x] b\n- [x] c\n- [ ] d"
      rfl (by decide) (by decide)).2
  · exact (gate_percentage_semantics envEmpty stIdeation ideationInfo rfl
      "gate_1_ideation_complete" rfl).2.1 rfl

end PhaseTracker

namespace PhaseTracker

/-- Claim C3: every transition request that is refused or is a no-op —
target equal to the current phase, target not a registry key, target not the
expected next phase without force, or gate not passed without force — makes
`set_phase` return the state entirely unchanged with nothing written to the
state file. -/
theorem refused_transition_unchanged (env : GateEnv) (now : String)
    (st : ProjectState) (info : PhaseInfo) (hp : PHASES st.phase = some info)
    (target : String) (force : Bool)
    (hrefuse : st.phase = target ∨ (PHASES target).isNone = true ∨
      (force = false ∧ target ≠ info.next) ∨
      (force = false ∧ check_gate env (some st) = false)) :
    set_phase env now (some st) target force =
      { state := some st, saved := false } := by
  cases hPT : PHASES target with
  | none => simp [set_phase, hPT]
  | some tinfo =>
    by_cases heq : st.phase = target
    · simp [set_phase, hPT, heq]
    · have hsp := set_phase_eq env now st target force info tinfo hp hPT heq
      rcases hrefuse with h | h | ⟨hf, hnext⟩ | ⟨hf, hgate⟩
      · exact absurd h heq
      · rw [hPT] at h
        simp at h
      · subst hf
        rw [hsp, if_pos ⟨hnext, by simp⟩]
      · subst hf
        rw [hsp]
        by_cases hnext : target = info.next
        · rw [if_neg (by simp [hnext]), if_pos ⟨by simp, by simp [hgate]⟩]
        · rw [if_pos ⟨hnext, by simp⟩]

theorem refused_transition_unchanged_witness :
    set_phase envEmpty "t1" (some stIdeation) "release" false =
      { state := some stIdeation, saved := false } := by
  exact refused_transition_unchanged envEmpty "t1" stIdeation ideationInfo rfl
    "release" false (Or.inr (Or.inr (Or.inl ⟨rfl, by decide⟩)))

/-- Claim C4: a forced transition to a valid registry phase distinct from
the current one succeeds regardless of adjacency to the current phase's
`next`, does not consult the gate environment at all, and appends a history
entry whose action is `forced_transition` and whose `from_phase` is the
prior phase. -/
theorem forced_transition_overrides (env : GateEnv) (now : String)
    (st : ProjectState) (info : PhaseInfo) (hp : PHASES st.phase = some info)
    (target : String) (hvalid : (PHASES target).isSome = true)
    (hne : st.phase ≠ target) :
    (set_phase env now (some st) target true).saved = true ∧
    (set_phase env now (some st) target true).state =
      some
        { st with
          phase := target
          entered_at := now
          history := st.history ++
            [{ phase := target
               entered_at := now
               from_phase := some st.phase
               action := "forced_transition" }] } ∧
    (∀ env' : GateEnv, set_phase env' now (some st) target true =
      set_phase env now (some st) target true) := by
  obtain ⟨tinfo, ht⟩ := Option.isSome_iff_exists.mp hvalid
  have hred : ∀ e : GateEnv, set_phase e now (some st) target true =
      { state := some
          { st with
            phase := target
            entered_at := now
            history := st.history ++
              [{ phase := target
                 entered_at := now
                 from_phase := some st.phase
                 action := "forced_transition" }] }
        saved := true } := by
    intro e
    rw [set_phase_eq e now st target true info tinfo hp ht hne]
    simp
  exact ⟨by rw [hred env], by rw [hred env],
    fun env' => by rw [hred env', hred env]⟩

theorem forced_transition_overrides_witness :
    (set_phase envEmpty "t1" (some stIdeation) "release" true).saved = true := by
  exact (forced_transition_overrides envEmpty "t1" stIdeation ideationInfo rfl
    "release" (by decide) (by decide)).1

end PhaseTracker

namespace PhaseTracker

/-- Claim C5: `init_state` establishes the state invariant with exactly one
`initialized` history entry carrying no `from_phase`, and `set_phase`
preserves the invariant, with the history left unchanged on refusal and
extended by exactly one entry — whose `from_phase` is set — on success
(append-only, never reordered or truncated). -/
theorem state_invariant_preserved (now projectName phase : String)
    (env : GateEnv) (target : String) (force : Bool) (st st' : ProjectState) :
    (∀ s0, init_state now projectName phase = some s0 →
      Inv s0 ∧ s0.history =
        [{ phase := phase
           entered_at := now
           from_phase := none
           action := "initialized" }]) ∧
    (Inv st → (set_phase env now (some st) target force).state = some st' →
      Inv st' ∧
      ((set_phase env now (some st) target force).saved = false → st' = st) ∧
      ((set_phase env now (some st) target force).saved = true →
        ∃ e, e.from_phase = some st.phase ∧ st'.history = st.history ++ [e])) := by
  constructor
  · intro s0 h0
    by_cases hv : (PHASES phase).isSome = true
    · rw [init_state, if_pos hv] at h0
      have hs := Option.some.inj h0
      subst hs
      refine ⟨⟨hv, by simp, ?_, ?_⟩, rfl⟩
      · intro e he
        simp only [List.head?_cons, Option.some.injEq] at he
        rw [← he]
      · intro e he
        simp at he
    · rw [init_state, if_neg hv] at h0
      cases h0
  · intro hInv hstate
    obtain ⟨info, hp⟩ := Option.isSome_iff_exists.mp hInv.1
    obtain ⟨e0, hist, hhist⟩ : ∃ e0 hist, st.history = e0 :: hist := by
      rcases hh : st.history with _ | ⟨e0, hist⟩
      · exact absurd hh hInv.2.1
      · exact ⟨e0, hist, rfl⟩
    cases hPT : PHASES target with
    | none =>
      have hres : set_phase env now (some st) target force =
          { state := some st, saved := false } := by
        simp [set_phase, hPT]
      rw [hres] at hstate ⊢
      have hst : some st = some st' := hstate
      have := Option.some.inj hst
      subst this
      exact ⟨hInv, fun _ => rfl, fun h => absurd h (by simp)⟩
    | some tinfo =>
      by_cases heq : st.phase = target
      · have hres : set_phase env now (some st) target force =
            { state := some st, saved := false } := by
          simp [set_phase, hPT, heq]
        rw [hres] at hstate ⊢
        have hst : some st = some st' := hstate
        have := Option.some.inj hst
        subst this
        exact ⟨hInv, fun _ => rfl, fun h => absurd h (by simp)⟩
      · rw [set_phase_eq env now st target force info tinfo hp hPT heq]
          at hstate ⊢
        have hsucc : ∀ a : String,
            some { st with
                   phase := target
                   entered_at := now
                   history := st.history ++
                     [{ phase := target
                        entered_at := now
                        from_phase := some st.phase
                        action := a }] } = some st' →
            Inv st' ∧ (true = false → st' = st) ∧
            (true = true → ∃ e, e.from_phase = some st.phase ∧
               st'.history = st.history ++ [e]) := by
          intro a hst
          have hs := Option.some.inj hst
          refine ⟨⟨?_, ?_, ?_, ?_⟩, fun h => absurd h (by simp), fun _ => ?_⟩
          · rw [← hs]
            simp [hPT]
          · rw [← hs]
            simp [hhist]
          · intro e he
            rw [← hs] at he
            simp only [hhist, List.cons_append, List.head?_cons,
              Option.some.injEq] at he
            rw [← he]
            exact hInv.2.2.1 e0 (by rw [hhist]; rfl)
          · intro e he
            rw [← hs] at he
            simp only [hhist, List.cons_append, List.tail_cons] at he
            rcases List.mem_append.mp he with hm | hm
            · exact hInv.2.2.2 e (by rw [hhist]; exact hm)
            · simp only [List.mem_singleton] at hm
              subst hm
              simp
          · refine ⟨{ phase := target
                      entered_at := now
                      from_phase := some st.phase
                      action := a }, rfl, ?_⟩
            rw [← hs]
        split_ifs at hstate ⊢ with h1 h2 h3
        · have hst : some st = some st' := hstate
          have := Option.some.inj hst
          subst this
          exact ⟨hInv, fun _ => rfl, fun h => absurd h (by simp)⟩
        · have hst : some st = some st' := hstate
          have := Option.some.inj hst
          subst this
          exact ⟨hInv, fun _ => rfl, fun h => absurd h (by simp)⟩
        · obtain ⟨hA, hB, hC⟩ := hsucc "forced_transition" hstate
          exact ⟨hA, fun h => h.elim, fun _ => hC rfl⟩
        · obtain ⟨hA, hB, hC⟩ := hsucc "transitioned" hstate
          exact ⟨hA, fun h => h.elim, fun _ => hC rfl⟩

theorem state_invariant_preserved_witness :
    Inv stIdeation ∧
    Inv stReleased := by
  have h1 := (state_invariant_preserved "t0" "proj" "ideation" envEmpty
    "release" true stIdeation stIdeation).1 stIdeation rfl
  refine ⟨h1.1, ?_⟩
  have h2 := (state_invariant_preserved "t1" "proj" "ideation" envEmpty
    "release" true stIdeation stReleased).2 h1.1 (by decide)
  exact h2.1

end PhaseTracker

namespace Validator

/-- Claim C7: a rule whose `condition` is none of the five dispatched
identifiers, and which is not filtered out by trigger or paths, evaluates to
passed with message `Passed` — unknown conditions are an automatic pass,
never an error. -/
theorem unknown_condition_passes (env : Env) (rule : Rule) (ctx : Context)
    (hcond : rule.condition.getD "" ∉ (["!commit_message_has_story_id",
      "contains_potential_secrets", "domain_has_infrastructure_reference",
      "file_staged", "coverage < 80"] : List String))
    (ht1 : ¬(rule.trigger.getD "" = "pre_commit" ∧ ctx.trigger ≠ "pre_commit"))
    (ht2 : ¬(rule.trigger.getD "" = "phase_transition" ∧
      ctx.trigger ≠ "phase_transition"))
    (hpaths : rule.paths.getD [] = [] ∨
      ctx.modified_files.filter
        (fun f => check_file_matches_patterns f (rule.paths.getD [])) ≠ []) :
    (validate_rule env rule ctx).1 = (true, "Passed") := by
  have hev : ∀ c : Context, evalCondition env rule c = (true, "Passed") := by
    intro c
    rw [evalCondition, if_neg, if_neg, if_neg, if_neg, if_neg]
    · intro h
      exact hcond (by rw [h]; simp)
    · intro h
      exact hcond (by rw [h]; simp)
    · intro h
      exact hcond (by rw [h]; simp)
    · intro h
      exact hcond (by rw [h]; simp)
    · intro h
      exact hcond (by rw [h]; simp)
  rw [validate_rule, if_neg ht1, if_neg ht2]
  rcases hpaths with hnil | hne
  · rw [if_neg (by simp [hnil])]
    exact hev ctx
  · by_cases hp0 : rule.paths.getD [] = []
    · rw [if_neg (by simp [hp0])]
      exact hev ctx
    · rw [if_pos hp0, if_neg hne]
      exact hev _

theorem unknown_condition_passes_witness :
    (validate_rule envNone
      { name := some "mystery"
        condition := some "frobnicate"
        trigger := none
        paths := none
        action := some "block"
        message := none
        agent := none } ctxPy).1 = (true, "Passed") := by
  exact unknown_condition_passes envNone _ ctxPy (by decide) (by decide)
    (by decide) (Or.inl rfl)

end Validator

namespace Validator

/-- Claim C8: a rule carrying a non-empty `paths` list is skipped and
reported as passed (with a skipped message) when no modified file matches
any of its glob patterns, regardless of its condition; when at least one
file matches, the matching subset is stored into `context.matching_files`
and the condition is evaluated against that updated context. -/
theorem paths_scope_rule (env : Env) (rule : Rule) (ctx : Context)
    (ht1 : ¬(rule.trigger.getD "" = "pre_commit" ∧ ctx.trigger ≠ "pre_commit"))
    (ht2 : ¬(rule.trigger.getD "" = "phase_transition" ∧
      ctx.trigger ≠ "phase_transition"))
    (hp0 : rule.paths.getD [] ≠ []) :
    (ctx.modified_files.filter
        (fun f => check_file_matches_patterns f (rule.paths.getD [])) = [] →
      validate_rule env rule ctx = ((true, "Skipped (no matching files)"), ctx)) ∧
    (ctx.modified_files.filter
        (fun f => check_file_matches_patterns f (rule.paths.getD [])) ≠ [] →
      validate_rule env rule ctx =
        (evalCondition env rule
          { ctx with matching_files := some (ctx.modified_files.filter
              (fun f => check_file_matches_patterns f (rule.paths.getD []))) },
         { ctx with matching_files := some (ctx.modified_files.filter
              (fun f => check_file_matches_patterns f (rule.paths.getD []))) })) := by
  constructor
  · intro hnil
    rw [validate_rule, if_neg ht1, if_neg ht2, if_pos hp0, if_pos hnil]
  · intro hne
    rw [validate_rule, if_neg ht1, if_neg ht2, if_pos hp0, if_neg hne]

theorem paths_scope_rule_witness :
    validate_rule envNone ruleCs ctxPy =
      ((true, "Skipped (no matching files)"), ctxPy) := by
  exact (paths_scope_rule envNone ruleCs ctxPy (by decide) (by decide)
    (by decide)).1 (by decide)

end Validator

namespace Validator

/-- Claim C10: a rule that fails evaluation but whose `action` field is
present and not one of `block`, `warn`, `require_review`,
`require_approval` increments none of the three summary counters, and such
a failing rule can never cause a non-zero exit status. -/
theorem unrecognized_action_uncounted (env : Env) (rule : Rule)
    (rest : List Rule) (ctx : Context) (check_only : Bool) (a : String)
    (ha : rule.action = some a)
    (hnot : a ∉ (["block", "warn", "require_review", "require_approval"] :
      List String))
    (hfail : (validate_rule env rule ctx).1.1 = false) :
    (validate_all_rules env (rule :: rest) ctx).1 =
      (validate_all_rules env rest (validate_rule env rule ctx).2).1 ∧
    main_exit env (rule :: rest) ctx check_only =
      main_exit env rest (validate_rule env rule ctx).2 check_only := by
  have hgetD : rule.action.getD "warn" = a := by rw [ha]; rfl
  have h1 : (validate_all_rules env (rule :: rest) ctx).1 =
      (validate_all_rules env rest (validate_rule env rule ctx).2).1 := by
    rw [validate_all_rules]
    simp only [hgetD, hfail]
    rw [if_neg, if_neg, if_neg, if_neg, if_neg]
    · intro h
      exact hnot (by rw [h]; simp)
    · intro h
      exact hnot (by rw [h]; simp)
    · intro h
      exact hnot (by rw [h]; simp)
    · intro h
      exact hnot (by rw [h]; simp)
    · simp
  refine ⟨h1, ?_⟩
  rw [main_exit, main_exit, h1]

theorem unrecognized_action_uncounted_witness :
    (validate_all_rules envNone [ruleAudit] ctxPy).1 =
      { passed := 0, warnings := 0, errors := 0 } ∧
    main_exit envNone [ruleAudit] ctxPy false = 0 := by
  have h := unrecognized_action_uncounted envNone ruleAudit [] ctxPy false
    "audit" rfl (by decide) (by decide)
  exact ⟨h.1, h.2⟩

end Validator

namespace Validator

/-- The `errors` counter is positive exactly when some rule in the run
failed with (default-applied) action `block`. -/
theorem errors_pos_iff (env : Env) (rules : List Rule) (ctx : Context) :
    0 < (validate_all_rules env rules ctx).1.errors ↔
      ∃ p ∈ ruleTrace env rules ctx,
        p.1.action.getD "warn" = "block" ∧ p.2 = false := by
  induction rules generalizing ctx with
  | nil => simp [validate_all_rules, ruleTrace]
  | cons rule rest ih =>
    have herr : (validate_all_rules env (rule :: rest) ctx).1.errors =
        (if (validate_rule env rule ctx).1.1 = false ∧
            rule.action.getD "warn" = "block" then
          (validate_all_rules env rest (validate_rule env rule ctx).2).1.errors + 1
        else
          (validate_all_rules env rest (validate_rule env rule ctx).2).1.errors) := by
      rw [validate_all_rules]
      split_ifs <;> simp_all
    rw [herr, ruleTrace]
    simp only [List.mem_cons, exists_eq_or_imp]
    split_ifs with h
    · constructor
      · intro _
        exact Or.inl ⟨h.2, h.1⟩
      · intro _
        omega
    · rw [ih]
      constructor
      · intro hx
        exact Or.inr hx
      · rintro (⟨hb, hf⟩ | hx)
        · exact absurd ⟨hf, hb⟩ h
        · exact hx

end Validator

namespace Validator

/-- Claim C6: the rule validator's process exit status is 1 exactly when at
least one rule with (default-applied) action `block` failed evaluation and
`--check-only` was not passed; in every other case the exit status is 0. -/
theorem exit_status_iff (env : Env) (rules : List Rule) (ctx : Context)
    (check_only : Bool) :
    (main_exit env rules ctx check_only = 1 ↔
      (check_only = false ∧ ∃ p ∈ ruleTrace env rules ctx,
        p.1.action.getD "warn" = "block" ∧ p.2 = false)) ∧
    (main_exit env rules ctx check_only = 0 ∨
      main_exit env rules ctx check_only = 1) := by
  have h := errors_pos_iff env rules ctx
  simp only [main_exit]
  by_cases herr : 0 < (validate_all_rules env rules ctx).1.errors
  · rw [if_pos herr]
    cases check_only with
    | false =>
      refine ⟨?_, Or.inr (by simp)⟩
      simp only [Bool.not_false, if_pos]
      simp [h.mp herr]
    | true =>
      refine ⟨?_, Or.inl (by simp)⟩
      simp
  · rw [if_neg herr]
    refine ⟨⟨fun h10 => absurd h10 (by simp), ?_⟩, Or.inl rfl⟩
    rintro ⟨hco, hx⟩
    exact absurd (h.mpr hx) herr

end Validator

namespace Validator

/-- `dropCI` consumes a keyword made of characters fixed by `toLower`. -/
theorem dropCI_lower (kw rest : List Char) (h : ∀ c ∈ kw, c.toLower = c) :
    dropCI kw (kw ++ rest) = some rest := by
  induction kw with
  | nil => rfl
  | cons k kr ih =>
    simp only [List.cons_append, dropCI]
    rw [h k (List.mem_cons_self k kr), if_pos rfl]
    exact ih fun c hc => h c (List.mem_cons_of_mem _ hc)

/-- `dropWhile` skips over a block of characters all satisfying `p`. -/
theorem dropWhile_append_all (p : Char → Bool) (ws r : List Char)
    (h : ∀ c ∈ ws, p c = true) :
    List.dropWhile p (ws ++ r) = List.dropWhile p r := by
  induction ws with
  | nil => rfl
  | cons w ws ih =>
    simp only [List.cons_append, List.dropWhile_cons]
    rw [h w (List.mem_cons_self w ws), if_pos rfl]
    exact ih fun c hc => h c (List.mem_cons_of_mem _ hc)

/-- The quoted-assignment tail matcher accepts any text of the shape
`<spaces><= or :><spaces><quote><non-quotes, at least one><quote>…`. -/
theorem afterSepQuoted_of_shape (sep q1 q2 : Char) (ws1 ws2 v post : List Char)
    (hsep : sep = '=' ∨ sep = ':')
    (hq1 : q1 = '"' ∨ q1 = '\'')
    (hq2 : q2 = '"' ∨ q2 = '\'')
    (hws1 : ∀ c ∈ ws1, isPySpace c = true)
    (hws2 : ∀ c ∈ ws2, isPySpace c = true)
    (hv : v ≠ []) (hvq : ∀ c ∈ v, isQuote c = false) :
    afterSepQuoted (ws1 ++ sep :: (ws2 ++ q1 :: (v ++ q2 :: post))) = true := by
  obtain ⟨c0, v', rfl⟩ : ∃ c0 v', v = c0 :: v' := by
    rcases v with _ | ⟨c0, v'⟩
    · exact absurd rfl hv
    · exact ⟨c0, v', rfl⟩
  have hsep_ns : isPySpace sep = false := by rcases hsep with rfl | rfl <;> rfl
  have hq1_ns : isPySpace q1 = false := by rcases hq1 with rfl | rfl <;> rfl
  have hq1_q : isQuote q1 = true := by rcases hq1 with rfl | rfl <;> rfl
  have hq2_q : isQuote q2 = true := by rcases hq2 with rfl | rfl <;> rfl
  have hsepb : (sep = '=' || sep = ':') = true := by
    rcases hsep with rfl | rfl <;> rfl
  have hc0 : isQuote c0 = false := hvq c0 (List.mem_cons_self _ _)
  have h1 : (ws1 ++ sep :: (ws2 ++ q1 :: (c0 :: v' ++ q2 :: post))).dropWhile
      isPySpace = sep :: (ws2 ++ q1 :: (c0 :: v' ++ q2 :: post)) := by
    rw [dropWhile_append_all _ _ _ hws1, List.dropWhile_cons, hsep_ns]
    simp
  have h2 : (ws2 ++ q1 :: (c0 :: v' ++ q2 :: post)).dropWhile isPySpace
      = q1 :: (c0 :: v' ++ q2 :: post) := by
    rw [dropWhile_append_all _ _ _ hws2, List.dropWhile_cons, hq1_ns]
    simp
  unfold afterSepQuoted
  rw [h1]
  simp only [h2]
  simp [hsepb, hq1_q, hc0, hq2_q, List.any_append]

/-- The hardcoded-password matcher accepts a recognised keyword followed by
an accepted assignment tail. -/
theorem matchPasswordAt_of_shape (kw r : List Char)
    (hkw : kw = "password".data ∨ kw = "passwd".data ∨ kw = "pwd".data)
    (hr : afterSepQuoted r = true) :
    matchPasswordAt (kw ++ r) = true := by
  rcases hkw with rfl | rfl | rfl
  · simp only [matchPasswordAt]
    rw [dropCI_lower _ r (by decide)]
    simp [hr]
  · simp only [matchPasswordAt]
    rw [dropCI_lower _ r (by decide)]
    simp [hr]
  · simp only [matchPasswordAt]
    rw [dropCI_lower _ r (by decide)]
    simp [hr]

/-- `re.search` succeeds when the anchored matcher holds on a suffix. -/
theorem searchAny_of_suffix (p : List Char → Bool) (t s : List Char)
    (hs : t <:+ s) (hp : p t = true) : searchAny p s = true := by
  rw [searchAny, List.any_eq_true]
  exact ⟨t, (List.mem_tails t s).mpr hs, hp⟩

end Validator

namespace Validator

/-- Claim C9: the secret scanner reports a hardcoded-password finding for
any text containing a password/passwd/pwd identifier followed by `=` or `:`
and a quoted non-empty value — in particular for `password = "hunter2shhh"`
— and reports no finding for text that mentions the word password without
such an assignment. -/
theorem hardcoded_password_detector :
    check_for_potential_secrets "password = \"hunter2shhh\"" =
      ["Hardcoded password"] ∧
    check_for_potential_secrets
      "# password is stored in the vault\n# never log the password" = [] ∧
    (∀ (pre ws1 ws2 v post kw : List Char) (sep q1 q2 : Char),
      (kw = "password".data ∨ kw = "passwd".data ∨ kw = "pwd".data) →
      (sep = '=' ∨ sep = ':') →
      (q1 = '"' ∨ q1 = '\'') →
      (q2 = '"' ∨ q2 = '\'') →
      (∀ c ∈ ws1, isPySpace c = true) →
      (∀ c ∈ ws2, isPySpace c = true) →
      v ≠ [] →
      (∀ c ∈ v, isQuote c = false) →
      "Hardcoded password" ∈ check_for_potential_secrets
        (String.mk (pre ++ (kw ++ (ws1 ++ sep ::
          (ws2 ++ q1 :: (v ++ q2 :: post))))))) := by
  refine ⟨by decide, by decide, ?_⟩
  intro pre ws1 ws2 v post kw sep q1 q2 hkw hsep hq1 hq2 hws1 hws2 hv hvq
  have hmatch : matchPasswordAt
      (kw ++ (ws1 ++ sep :: (ws2 ++ q1 :: (v ++ q2 :: post)))) = true :=
    matchPasswordAt_of_shape kw _ hkw
      (afterSepQuoted_of_shape sep q1 q2 ws1 ws2 v post hsep hq1 hq2 hws1
        hws2 hv hvq)
  have hsearch : searchAny matchPasswordAt
      (String.mk (pre ++ (kw ++ (ws1 ++ sep ::
        (ws2 ++ q1 :: (v ++ q2 :: post)))))).data = true :=
    searchAny_of_suffix _ _ _ ⟨pre, rfl⟩ hmatch
  rw [check_for_potential_secrets, hsearch]
  simp [List.mem_append]

theorem hardcoded_password_detector_witness :
    "Hardcoded password" ∈ check_for_potential_secrets
      (String.mk ("cfg: ".data ++ ("pwd".data ++ ([' '] ++ ':' ::
        ([] ++ '\'' :: ("s3cret".data ++ '"' :: "\n".data)))))) := by
  exact (hardcoded_password_detector).2.2 "cfg: ".data [' '] [] "s3cret".data
    "\n".data "pwd".data ':' '\'' '"'
    (Or.inr (Or.inr rfl)) (Or.inr rfl) (Or.inr rfl) (Or.inl rfl)
    (by decide) (by decide) (by decide) (by decide)

end Validator
